import Mathlib

/-!
Verification of the sliding-window rate limiter in `zerver/lib/rate_limiter.py`.

The Redis state attached to one entity key is modelled as a `Store`: the
recency list (most-recent-first call timestamps, Redis list), the sorted set
holding the same timestamps (Redis zset, members identified by their value),
the expiry instants of both structures, and the optional block flag recorded
as its absolute expiry instant.  Timestamps and durations are rationals
(Python floats); rule windows and call counts are naturals (Python ints).
Concurrency is determinised by a conflict schedule `conflict : Nat → Bool`
telling whether the n-th optimistic transaction attempt hits a WatchError.
-/

/-- A rate-limiting rule `(range_seconds, num_requests)`, as stored in
`settings.RATE_LIMITING_RULES` lists. -/
abbrev Rule := Nat × Nat

/-- Redis state for a single entity key: the three keys returned by
`RedisRateLimiterBackend.get_keys` (list, zset, block), with the expiry
times the code sets on them. -/
structure Store where
  list : List ℚ
  zset : List ℚ
  listExpiry : Option ℚ
  zsetExpiry : Option ℚ
  block : Option ℚ
  deriving DecidableEq, Repr

/-- Redis LINDEX: a negative index counts from the end of the list. -/
def redis_lindex (l : List ℚ) (i : ℤ) : Option ℚ :=
  let j : ℤ := if i < 0 then (l.length : ℤ) + i else i
  if j < 0 then none else l[j.toNat]?

/-- Redis LTRIM with start 0: keep indices `0 .. stop`, where a negative
`stop` counts from the end of the list. -/
def redis_ltrim_from_zero (l : List ℚ) (stop : ℤ) : List ℚ :=
  let stop2 : ℤ := if stop < 0 then (l.length : ℤ) + stop else stop
  if stop2 < 0 then [] else l.take (stop2.toNat + 1)

/-- Redis ZADD of a single member (members are identified by their value,
as the code stores `str(now)` with score `now`). -/
def zadd (zs : List ℚ) (v : ℚ) : List ℚ :=
  if v ∈ zs then zs else v :: zs

/-- Redis ZREM of a single member. -/
def zrem (zs : List ℚ) (v : ℚ) : List ℚ :=
  zs.filter (fun x => decide (x ≠ v))

/-- Redis ZCOUNT with inclusive score bounds. -/
def zcount (zs : List ℚ) (lo hi : ℚ) : ℕ :=
  (zs.filter (fun v => decide (lo ≤ v ∧ v ≤ hi))).length

/-- Reading `GET block_key` at instant `now`: the key exists while `now`
is before its expiry. -/
def block_exists (s : Store) (now : ℚ) : Bool :=
  match s.block with
  | some e => decide (now < e)
  | none => false

/-- Reading `TTL block_key` at instant `now` (remaining time to live,
`none` when the key does not exist). -/
def blocking_ttl_read (s : Store) (now : ℚ) : Option ℚ :=
  match s.block with
  | some e => if now < e then some (e - now) else none
  | none => none

/-- Model of `RedisRateLimiterBackend.block_access`: SET the block key and EXPIRE it
after `seconds`. -/
def block_access (s : Store) (now : ℚ) (seconds : ℕ) : Store :=
  { s with block := some (now + (seconds : ℚ)) }

/-- Model of `RedisRateLimiterBackend.unblock_access`: DEL the block key. -/
def unblock_access (s : Store) : Store :=
  { s with block := none }

/-- Model of `RedisRateLimiterBackend.clear_history`: DEL every key of
`get_keys(entity_key)` — the list, the zset and the block key. -/
def clear_history (_s : Store) : Store :=
  { list := [], zset := [], listExpiry := none, zsetExpiry := none, block := none }

/-- Model of `RedisRateLimiterBackend.get_api_calls_left`: ZCOUNT the window
`[now - range_seconds, now]` and LINDEX the front (newest) list element. -/
def get_api_calls_left (s : Store) (now : ℚ) (range_seconds max_calls : ℕ) : ℤ × ℚ :=
  let boundary := now - (range_seconds : ℚ)
  let count := zcount s.zset boundary now
  let newest_call := redis_lindex s.list 0
  let calls_left : ℤ := (max_calls : ℤ) - (count : ℤ)
  let time_reset : ℚ :=
    match newest_call with
    | some t => now + ((range_seconds : ℚ) - (now - t))
    | none => now
  (calls_left, time_reset - now)

/-- The per-rule loop of `RedisRateLimiterBackend.is_ratelimited`: walk the
fetched `rule_timestamps` in step with the rules; a missing timestamp is
skipped; the first rule whose timestamp satisfies
`timestamp + range_seconds >= now` denies with the residual wait. -/
def check_rules (now : ℚ) : List (Option ℚ) → List Rule → Bool × ℚ
  | timestamp :: ts, (range_seconds, _) :: rs =>
    match timestamp with
    | none => check_rules now ts rs
    | some t =>
      if t + (range_seconds : ℚ) ≥ now then (true, t + (range_seconds : ℚ) - now)
      else check_rules now ts rs
  | _, _ => (false, 0)

/-- Body of `RedisRateLimiterBackend.is_ratelimited` after the pipeline has
returned: the popped block value and TTL, then the manual-block branch
(0.5 wait when the TTL is unreadable), the empty-rules early return, and
the per-rule loop. -/
def is_ratelimited_core (rule_timestamps : List (Option ℚ)) (key_blocked : Bool)
    (blocking_ttl_b : Option ℚ) (rules : List Rule) (now : ℚ) : Bool × ℚ :=
  if key_blocked then
    (true, match blocking_ttl_b with
      | none => (1 : ℚ) / 2
      | some ttl => ttl)
  else if rules.length = 0 then (false, 0)
  else check_rules now rule_timestamps rules

/-- The LINDEX fetches issued by `is_ratelimited`: for each rule,
`lindex(list_key, request_count - 1)`. -/
def fetch_rule_timestamps (l : List ℚ) (rules : List Rule) : List (Option ℚ) :=
  rules.map (fun r => redis_lindex l ((r.2 : ℤ) - 1))

/-- Model of `RedisRateLimiterBackend.is_ratelimited` against a `Store` at instant
`now`. -/
def is_ratelimited (s : Store) (now : ℚ) (rules : List Rule) : Bool × ℚ :=
  is_ratelimited_core (fetch_rule_timestamps s.list rules) (block_exists s now)
    (blocking_ttl_read s now) rules now

/-- Outcome of `RedisRateLimiterBackend.incr_ratelimit`: the updated store,
or the `RateLimiterLockingException` escape. -/
inductive IncrResult where
  | ok (s : Store)
  | lockingFailure
  deriving DecidableEq, Repr

/-- One successful transaction of `incr_ratelimit`: LINDEX the element about
to be trimmed, LPUSH `now`, LTRIM to `max_api_calls` entries, ZADD `now`,
ZREM the trimmed element if any, and EXPIRE both keys after
`max_api_window`. -/
def incr_body (s : Store) (now : ℚ) (max_api_calls max_api_window : ℕ) : Store :=
  let last_val := redis_lindex s.list ((max_api_calls : ℤ) - 1)
  let pushed := now :: s.list
  let trimmed := redis_ltrim_from_zero pushed ((max_api_calls : ℤ) - 1)
  let zs := zadd s.zset now
  let zs2 :=
    match last_val with
    | some v => zrem zs v
    | none => zs
  { list := trimmed, zset := zs2,
    listExpiry := some (now + (max_api_window : ℚ)),
    zsetExpiry := some (now + (max_api_window : ℚ)),
    block := s.block }

/-- The optimistic-concurrency retry loop of `incr_ratelimit`: attempt the
transaction; on a WatchError raise `RateLimiterLockingException` when the
counter exceeds 10, otherwise increment the counter and retry.  `conflict n`
says whether the attempt made with counter value `n` hits a WatchError. -/
def incr_loop (conflict : ℕ → Bool) (s : Store) (now : ℚ)
    (mac maw : ℕ) (count : ℕ) : IncrResult :=
  if conflict count then
    if _h : count > 10 then IncrResult.lockingFailure
    else incr_loop conflict s now mac maw (count + 1)
  else IncrResult.ok (incr_body s now mac maw)
termination_by 11 - count
decreasing_by omega

/-- Model of `RedisRateLimiterBackend.incr_ratelimit`: store nothing when there are
no rules, otherwise run the retry loop starting with counter 0. -/
def incr_ratelimit (conflict : ℕ → Bool) (s : Store) (now : ℚ) (rules : List Rule)
    (mac maw : ℕ) : IncrResult :=
  if rules.length = 0 then IncrResult.ok s
  else incr_loop conflict s now mac maw 0

/-- Result of `rate_limit_entity`: the verdict pair, the resulting store, and
the warning log (carrying the entity key) emitted on locking failure. -/
structure RLResult where
  ratelimited : Bool
  time : ℚ
  store : Store
  warning : Option String
  deriving DecidableEq, Repr

/-- Model of `RedisRateLimiterBackend.rate_limit_entity`: evaluate; on allow, record
(converting `RateLimiterLockingException` into a denial plus a warning log
naming the entity key).  The statsd counter bumped on denial is external
fire-and-forget state and is not part of the store. -/
def rate_limit_entity (entity_key : String) (conflict : ℕ → Bool) (s : Store) (now : ℚ)
    (rules : List Rule) (mac maw : ℕ) : RLResult :=
  let rt := is_ratelimited s now rules
  if rt.1 then
    { ratelimited := true, time := rt.2, store := s, warning := none }
  else
    match incr_ratelimit conflict s now rules mac maw with
    | IncrResult.ok s2 => { ratelimited := false, time := rt.2, store := s2, warning := none }
    | IncrResult.lockingFailure =>
        { ratelimited := true, time := rt.2, store := s, warning := some entity_key }

/-- Model of `RateLimitedObject.max_api_calls`: `rules()[-1][1]`; `none` models the
IndexError on an empty rule list. -/
def max_api_calls (rules : List Rule) : Option ℕ :=
  rules.getLast?.map (fun r => r.2)

/-- Model of `RateLimitedObject.max_api_window`: `rules()[-1][0]`. -/
def max_api_window (rules : List Rule) : Option ℕ :=
  rules.getLast?.map (fun r => r.1)

/-- Model of `RateLimitedObject.rate_limit`: pass the key, the rules and the derived
trim bound / expiry window to the backend. -/
def rate_limit (entity_key : String) (conflict : ℕ → Bool) (s : Store) (now : ℚ)
    (rules : List Rule) : Option RLResult :=
  match max_api_calls rules, max_api_window rules with
  | some mac, some maw => some (rate_limit_entity entity_key conflict s now rules mac maw)
  | _, _ => none

/-- Model of `remove_ratelimit_rule` applied to one domain's rule list: keep the
rules whose window AND count both differ from the argument pair. -/
def remove_ratelimit_rule (range_seconds num_requests : ℕ)
    (domain_rules : List Rule) : List Rule :=
  domain_rules.filter (fun x => decide (x.1 ≠ range_seconds ∧ x.2 ≠ num_requests))

/-- Spec-side reading of one rule tripping: the `max_calls`-th most recent
stored timestamp (1-indexed from the front) exists and satisfies
`timestamp + window ≥ now`. -/
def rule_trips (l : List ℚ) (now : ℚ) (r : Rule) : Prop :=
  ∃ t, l[r.2 - 1]? = some t ∧ t + (r.1 : ℚ) ≥ now

lemma redis_lindex_pos (l : List ℚ) (c : ℕ) (hc : 0 < c) :
    redis_lindex l ((c : ℤ) - 1) = l[c - 1]? := by
  have h1 : ¬ ((c : ℤ) - 1 < 0) := by omega
  have h2 : ((c : ℤ) - 1).toNat = c - 1 := by omega
  simp [redis_lindex, h1, h2]

lemma redis_ltrim_pos (l : List ℚ) (c : ℕ) (hc : 0 < c) :
    redis_ltrim_from_zero l ((c : ℤ) - 1) = l.take c := by
  have h1 : ¬ ((c : ℤ) - 1 < 0) := by omega
  have h2 : ((c : ℤ) - 1).toNat + 1 = c := by omega
  simp only [redis_ltrim_from_zero, h1, if_false]
  rw [h2]

lemma incr_loop_unfold (conflict : ℕ → Bool) (s : Store) (now : ℚ) (mac maw count : ℕ) :
    incr_loop conflict s now mac maw count =
      if conflict count then
        if count > 10 then IncrResult.lockingFailure
        else incr_loop conflict s now mac maw (count + 1)
      else IncrResult.ok (incr_body s now mac maw) := by
  rw [incr_loop]
  by_cases h : count > 10 <;> simp [h]




lemma incr_loop_cases (conflict : ℕ → Bool) (s : Store) (now : ℚ) (mac maw : ℕ) :
    ∀ n count, 11 - count ≤ n →
      incr_loop conflict s now mac maw count = IncrResult.lockingFailure ∨
      incr_loop conflict s now mac maw count = IncrResult.ok (incr_body s now mac maw) := by
  intro n
  induction n with
  | zero =>
    intro count hc
    rw [incr_loop_unfold]
    by_cases h1 : conflict count = true
    · by_cases h2 : count > 10
      · simp [h1, h2]
      · exact absurd hc (by omega)
    · simp [h1]
  | succ n ih =>
    intro count hc
    rw [incr_loop_unfold]
    by_cases h1 : conflict count = true
    · by_cases h2 : count > 10
      · simp [h1, h2]
      · simp only [h1, if_true, h2, if_false]
        exact ih (count + 1) (by omega)
    · simp [h1]

lemma incr_loop_fail_iff (conflict : ℕ → Bool) (s : Store) (now : ℚ) (mac maw : ℕ) :
    ∀ n count, 11 - count ≤ n → count ≤ 11 →
      (incr_loop conflict s now mac maw count = IncrResult.lockingFailure ↔
        ∀ i, count ≤ i → i ≤ 11 → conflict i = true) := by
  intro n
  induction n with
  | zero =>
    intro count hc hle
    have hc11 : count = 11 := by omega
    subst hc11
    rw [incr_loop_unfold]
    by_cases h1 : conflict 11 = true
    · simp only [h1, if_true]
      have h2 : (11 : ℕ) > 10 := by omega
      simp only [h2, if_true]
      constructor
      · intro _ i hi1 hi2
        have hi : i = 11 := by omega
        rw [hi]; exact h1
      · intro _; trivial
    · simp only [h1]
      constructor
      · intro habs; exact absurd habs (by simp)
      · intro hall
        exact absurd (hall 11 le_rfl le_rfl) h1
  | succ n ih =>
    intro count hc hle
    rw [incr_loop_unfold]
    by_cases h1 : conflict count = true
    · simp only [h1, if_true]
      by_cases h2 : count > 10
      · have hc11 : count = 11 := by omega
        subst hc11
        simp only [h2, if_true]
        constructor
        · intro _ i hi1 hi2
          have hi : i = 11 := by omega
          rw [hi]; exact h1
        · intro _; trivial
      · simp only [h2, if_false]
        rw [ih (count + 1) (by omega) (by omega)]
        constructor
        · intro hall i hi1 hi2
          rcases Nat.eq_or_lt_of_le hi1 with heq | hlt
          · rw [← heq]; exact h1
          · exact hall i hlt hi2
        · intro hall i hi1 hi2
          exact hall i (by omega) hi2
    · simp only [h1, if_false]
      constructor
      · intro habs; exact absurd habs (by simp)
      · intro hall
        exact absurd (hall count le_rfl hle) h1

lemma incr_loop_first_ok (conflict : ℕ → Bool) (s : Store) (now : ℚ) (mac maw : ℕ)
    (h : conflict 0 = false) :
    incr_loop conflict s now mac maw 0 = IncrResult.ok (incr_body s now mac maw) := by
  rw [incr_loop_unfold, h]
  simp

lemma check_rules_fetch_true_iff (l : List ℚ) (now : ℚ) :
    ∀ rules : List Rule, (∀ r ∈ rules, 0 < r.2) →
      ((check_rules now (fetch_rule_timestamps l rules) rules).1 = true ↔
        ∃ r ∈ rules, rule_trips l now r) := by
  intro rules
  induction rules with
  | nil => intro _; simp [fetch_rule_timestamps, check_rules]
  | cons r rs ih =>
    intro hpos
    obtain ⟨w, c⟩ := r
    have hc : 0 < c := hpos (w, c) (List.mem_cons_self _ _)
    have hfetch : fetch_rule_timestamps l ((w, c) :: rs) =
        redis_lindex l ((c : ℤ) - 1) :: fetch_rule_timestamps l rs := rfl
    rw [hfetch, redis_lindex_pos l c hc]
    rcases hl : l[c - 1]? with _ | t
    · simp only [check_rules]
      rw [ih (fun x hx => hpos x (List.mem_cons_of_mem _ hx))]
      constructor
      · rintro ⟨x, hx, htx⟩
        exact ⟨x, List.mem_cons_of_mem _ hx, htx⟩
      · rintro ⟨x, hx, htx⟩
        rcases List.mem_cons.mp hx with heq | hmem
        · obtain ⟨t, ht, _⟩ := htx
          rw [heq] at ht
          simp only at ht
          rw [hl] at ht
          exact absurd ht (by simp)
        · exact ⟨x, hmem, htx⟩
    · by_cases hcond : t + (w : ℚ) ≥ now
      · simp only [check_rules]
        rw [if_pos hcond]
        constructor
        · intro _
          exact ⟨(w, c), List.mem_cons_self _ _, t, hl, hcond⟩
        · intro _; rfl
      · simp only [check_rules]
        rw [if_neg hcond]
        rw [ih (fun x hx => hpos x (List.mem_cons_of_mem _ hx))]
        constructor
        · rintro ⟨x, hx, htx⟩
          exact ⟨x, List.mem_cons_of_mem _ hx, htx⟩
        · rintro ⟨x, hx, htx⟩
          rcases List.mem_cons.mp hx with heq | hmem
          · obtain ⟨u, hu, hwu⟩ := htx
            rw [heq] at hu hwu
            simp only at hu hwu
            rw [hl] at hu
            have : u = t := (Option.some.inj hu).symm
            rw [this] at hwu
            exact absurd hwu hcond
          · exact ⟨x, hmem, htx⟩

lemma check_rules_fetch_first (l : List ℚ) (now : ℚ) :
    ∀ (pre : List Rule) (r : Rule) (post : List Rule),
      (∀ x ∈ pre ++ r :: post, 0 < x.2) →
      (∀ p ∈ pre, ¬ rule_trips l now p) →
      ∀ t, l[r.2 - 1]? = some t → t + (r.1 : ℚ) ≥ now →
      check_rules now (fetch_rule_timestamps l (pre ++ r :: post)) (pre ++ r :: post) =
        (true, t + (r.1 : ℚ) - now) := by
  intro pre
  induction pre with
  | nil =>
    intro r post hpos hpre t ht hge
    obtain ⟨w, c⟩ := r
    have hc : 0 < c := hpos (w, c) (by simp)
    simp only [List.nil_append]
    have hfetch : fetch_rule_timestamps l ((w, c) :: post) =
        redis_lindex l ((c : ℤ) - 1) :: fetch_rule_timestamps l post := rfl
    rw [hfetch, redis_lindex_pos l c hc]
    simp only at ht hge
    rw [ht]
    simp only [check_rules]
    rw [if_pos hge]
  | cons p pre ih =>
    intro r post hpos hpre t ht hge
    obtain ⟨wp, cp⟩ := p
    have hcp : 0 < cp := hpos (wp, cp) (by simp)
    simp only [List.cons_append]
    have hfetch : fetch_rule_timestamps l ((wp, cp) :: (pre ++ r :: post)) =
        redis_lindex l ((cp : ℤ) - 1) :: fetch_rule_timestamps l (pre ++ r :: post) := rfl
    rw [hfetch, redis_lindex_pos l cp hcp]
    have hnp : ¬ rule_trips l now (wp, cp) := hpre _ (List.mem_cons_self _ _)
    rcases hl : l[cp - 1]? with _ | tp
    · simp only [check_rules]
      exact ih r post (fun x hx => hpos x (List.mem_cons_of_mem _ hx))
        (fun q hq => hpre q (List.mem_cons_of_mem _ hq)) t ht hge
    · have hcond : ¬ (tp + (wp : ℚ) ≥ now) := by
        intro hcond
        exact hnp ⟨tp, hl, hcond⟩
      simp only [check_rules]
      rw [if_neg hcond]
      exact ih r post (fun x hx => hpos x (List.mem_cons_of_mem _ hx))
        (fun q hq => hpre q (List.mem_cons_of_mem _ hq)) t ht hge

/-- C2: for an unblocked key and a rule set sorted ascending by window (call
counts positive as per the data model), evaluation denies iff some rule's
max_calls-th most recent stored timestamp (1-indexed from the front) exists
and satisfies timestamp + window ≥ now; and whenever no rule before `r`
trips while `r` does, evaluation stops at `r`, reporting exactly the wait
timestamp + window − now of that first tripping rule. -/
theorem c2_evaluation_denies_iff (s : Store) (now : ℚ) (rules : List Rule)
    (hb : block_exists s now = false)
    (hsorted : rules.Pairwise (fun a b => a.1 ≤ b.1))
    (hpos : ∀ r ∈ rules, 0 < r.2) :
    ((is_ratelimited s now rules).1 = true ↔ ∃ r ∈ rules, rule_trips s.list now r) ∧
    (∀ pre r post, rules = pre ++ r :: post →
      (∀ p ∈ pre, ¬ rule_trips s.list now p) →
      ∀ t, s.list[r.2 - 1]? = some t → t + (r.1 : ℚ) ≥ now →
      is_ratelimited s now rules = (true, t + (r.1 : ℚ) - now)) := by
  constructor
  · cases rules with
    | nil => simp [is_ratelimited, is_ratelimited_core, hb, fetch_rule_timestamps, check_rules]
    | cons r0 rs =>
      simp only [is_ratelimited, is_ratelimited_core, hb, Bool.false_eq_true, if_false,
        List.length_cons]
      rw [if_neg (by simp)]
      exact check_rules_fetch_true_iff s.list now (r0 :: rs) hpos
  · intro pre r post hru hpre t ht hge
    subst hru
    simp only [is_ratelimited, is_ratelimited_core, hb, Bool.false_eq_true, if_false]
    rw [if_neg (by simp)]
    exact check_rules_fetch_first s.list now pre r post hpos hpre t ht hge

/-- Witness for C2: one stored timestamp 5, rule (60, 1), now = 10; the rule
trips and the evaluation denies with wait 55. -/
theorem c2_witness :
    (block_exists ⟨[5], [5], none, none, none⟩ 10 = false ∧
     ([((60 : ℕ), (1 : ℕ))] : List Rule).Pairwise (fun a b => a.1 ≤ b.1) ∧
     (∀ r ∈ ([((60 : ℕ), (1 : ℕ))] : List Rule), 0 < r.2)) ∧
    (((is_ratelimited ⟨[5], [5], none, none, none⟩ 10 [(60, 1)]).1 = true ↔
        ∃ r ∈ ([((60 : ℕ), (1 : ℕ))] : List Rule), rule_trips [5] 10 r) ∧
     (∀ pre r post, ([((60 : ℕ), (1 : ℕ))] : List Rule) = pre ++ r :: post →
        (∀ p ∈ pre, ¬ rule_trips [5] 10 p) →
        ∀ t, ([(5 : ℚ)])[r.2 - 1]? = some t → t + (r.1 : ℚ) ≥ 10 →
        is_ratelimited ⟨[5], [5], none, none, none⟩ 10 [(60, 1)] = (true, t + (r.1 : ℚ) - 10))) :=
  ⟨⟨rfl, by simp, by decide⟩,
    c2_evaluation_denies_iff ⟨[5], [5], none, none, none⟩ 10 [(60, 1)] rfl (by simp) (by decide)⟩

/-- C3 (amended): remaining = max_calls − count of stored zset timestamps in
[now − window, now]; reset_in = 0 when the recency list is empty, otherwise
window − (now − newest) where newest is the front (most recent) entry of the
recency list — not the oldest counted timestamp. -/
theorem c3_quota_left (s : Store) (now : ℚ) (range_seconds max_calls : ℕ) :
    get_api_calls_left s now range_seconds max_calls =
      ((max_calls : ℤ) -
        (s.zset.countP (fun t => decide (now - (range_seconds : ℚ) ≤ t ∧ t ≤ now)) : ℤ),
        match s.list with
        | [] => 0
        | t0 :: _ => (range_seconds : ℚ) - (now - t0)) := by
  cases hl : s.list with
  | nil =>
    simp [get_api_calls_left, zcount, redis_lindex, hl, List.countP_eq_length_filter]
  | cons t0 rest =>
    simp only [get_api_calls_left, zcount, redis_lindex, hl, List.countP_eq_length_filter]
    norm_num

/-- C3 counterexample: stored timestamps [8, 6] (most-recent-first), window
5, max_calls 5, now = 10: the code computes reset_in = 3 from the newest
timestamp 8, while the claim's formula window − (now − oldest_counted)
gives 1. -/
theorem c3_counterexample :
    get_api_calls_left ⟨[8, 6], [8, 6], none, none, none⟩ 10 5 5 = (3, 3) ∧
    (5 : ℚ) - (10 - 6) = 1 ∧ (3 : ℚ) ≠ 1 := by
  norm_num [get_api_calls_left, zcount, redis_lindex, List.filter_cons]

/-- C4 (code bug): `remove_ratelimit_rule` keeps only the rules whose window
AND count both differ, so it drops every rule agreeing with the argument
pair in either coordinate: removing (1, 7) from [(1, 5), (60, 7)] deletes
both rules although neither equals (1, 7). -/
theorem c4_remove_rule_failing :
    remove_ratelimit_rule 1 7 [(1, 5), (60, 7)] = [] ∧
    ((1, 7) : Rule) ∉ ([(1, 5), (60, 7)] : List Rule) := by decide

/-- C5 counterexample: a blocked key (block flag alive until 100, now = 5)
is denied before `clear_history` and no longer blocked after it, because
`clear_history` deletes the block key along with the history keys. -/
theorem c5_counterexample :
    (is_ratelimited ⟨[], [], none, none, some 100⟩ 5 []).1 = true ∧
    (is_ratelimited (clear_history ⟨[], [], none, none, some 100⟩) 5 []).1 = false := by
  norm_num [is_ratelimited, is_ratelimited_core, clear_history, block_exists,
    blocking_ttl_read, fetch_rule_timestamps, check_rules]

/-- C5 (amended): `clear_history` deletes all three keys of the entity: the
quota query returns to (max_calls, 0) and the Block Flag is removed as well,
so a blocked key becomes unblocked; the flag is cleared by `unblock_access`,
by `clear_history`, or by natural expiry. -/
theorem c5_clear_history (s : Store) (now : ℚ) (range_seconds max_calls : ℕ) :
    get_api_calls_left (clear_history s) now range_seconds max_calls = ((max_calls : ℤ), 0) ∧
    block_exists (clear_history s) now = false ∧
    blocking_ttl_read (clear_history s) now = none := by
  refine ⟨?_, rfl, rfl⟩
  simp [clear_history, get_api_calls_left, zcount, redis_lindex]

/-- C10: with an empty rule list an unblocked key always evaluates to
(allowed, 0), and the record step stores nothing, returning the store
unchanged. -/
theorem c10_empty_rules (conflict : ℕ → Bool) (s : Store) (now : ℚ) (mac maw : ℕ)
    (hb : block_exists s now = false) :
    is_ratelimited s now [] = (false, 0) ∧
    incr_ratelimit conflict s now [] mac maw = IncrResult.ok s := by
  constructor
  · simp [is_ratelimited, is_ratelimited_core, hb, fetch_rule_timestamps]
  · simp [incr_ratelimit]

/-- Witness for C10 at a concrete unblocked store. -/
theorem c10_witness :
    block_exists ⟨[3], [3], none, none, none⟩ 7 = false ∧
    (is_ratelimited ⟨[3], [3], none, none, none⟩ 7 [] = (false, 0) ∧
     incr_ratelimit (fun _ => true) ⟨[3], [3], none, none, none⟩ 7 [] 4 9 =
       IncrResult.ok ⟨[3], [3], none, none, none⟩) :=
  ⟨rfl, c10_empty_rules (fun _ => true) ⟨[3], [3], none, none, none⟩ 7 4 9 rfl⟩

/-- C7 (amended): the retry loop performs up to 12 attempts, not 10: with a
non-empty rule set, LockingFailure is signalled iff the attempts made with
counter values 0..11 all conflict — the counter, incremented after each
conflict, must exceed 10 — and whenever no failure is signalled the record
applies the transaction body. -/
theorem c7_retry_cap (conflict : ℕ → Bool) (s : Store) (now : ℚ) (rules : List Rule)
    (mac maw : ℕ) (hrules : rules ≠ []) :
    (incr_ratelimit conflict s now rules mac maw = IncrResult.lockingFailure ↔
      ∀ i, i ≤ 11 → conflict i = true) ∧
    (incr_ratelimit conflict s now rules mac maw ≠ IncrResult.lockingFailure →
      incr_ratelimit conflict s now rules mac maw = IncrResult.ok (incr_body s now mac maw)) := by
  have hlen : ¬ (rules.length = 0) := by
    cases rules with
    | nil => exact absurd rfl hrules
    | cons a l => simp
  constructor
  · rw [incr_ratelimit, if_neg hlen]
    rw [incr_loop_fail_iff conflict s now mac maw 11 0 (by omega) (by omega)]
    constructor
    · intro h i hi
      exact h i (Nat.zero_le _) hi
    · intro h i _ hi
      exact h i hi
  · intro hne
    rw [incr_ratelimit, if_neg hlen] at hne ⊢
    rcases incr_loop_cases conflict s now mac maw 11 0 (by omega) with h | h
    · exact absurd h hne
    · exact h

/-- C7 counterexample: a schedule that conflicts on exactly the first 10
attempts and then succeeds: the claimed 10-attempt cap demands a
LockingFailure, but the code keeps retrying and the record succeeds. -/
theorem c7_counterexample :
    incr_ratelimit (fun n => decide (n < 10)) ⟨[], [], none, none, none⟩ 0 [(1, 1)] 1 1 ≠
      IncrResult.lockingFailure ∧
    (List.range 10).all (fun n => decide (n < 10)) = true := by
  constructor
  · intro h
    rw [incr_ratelimit, if_neg (by simp)] at h
    rw [incr_loop_fail_iff (fun n => decide (n < 10)) ⟨[], [], none, none, none⟩ 0 1 1 11 0
      (by omega) (by omega)] at h
    have h10 := h 10 (Nat.zero_le _) (by omega)
    simp at h10
  · decide

/-- Witness for C7 at the always-conflicting schedule: with rules [(1, 1)]
the record signals LockingFailure, matching the all-12-attempts-conflict
characterization. -/
theorem c7_witness :
    ([((1 : ℕ), (1 : ℕ))] : List Rule) ≠ [] ∧
    ((incr_ratelimit (fun _ => true) ⟨[], [], none, none, none⟩ 0 [(1, 1)] 1 1 =
        IncrResult.lockingFailure ↔ ∀ i, i ≤ 11 → (fun _ : ℕ => true) i = true) ∧
     (incr_ratelimit (fun _ => true) ⟨[], [], none, none, none⟩ 0 [(1, 1)] 1 1 ≠
        IncrResult.lockingFailure →
      incr_ratelimit (fun _ => true) ⟨[], [], none, none, none⟩ 0 [(1, 1)] 1 1 =
        IncrResult.ok (incr_body ⟨[], [], none, none, none⟩ 0 1 1))) :=
  ⟨by simp, c7_retry_cap (fun _ => true) ⟨[], [], none, none, none⟩ 0 [(1, 1)] 1 1 (by simp)⟩

/-- C6: when evaluation allows but every record attempt conflicts, the whole
operation returns denied (fail-closed) together with the warning diagnostic
naming the entity key; the locking failure is converted to this ordinary
denied result at the entity layer, never surfacing as a distinct error. -/
theorem c6_locking_failure_fail_closed (entity_key : String) (conflict : ℕ → Bool)
    (s : Store) (now : ℚ) (rules : List Rule) (mac maw : ℕ)
    (hrules : rules ≠ [])
    (hconf : ∀ i, i ≤ 11 → conflict i = true)
    (hallow : (is_ratelimited s now rules).1 = false) :
    rate_limit_entity entity_key conflict s now rules mac maw =
      { ratelimited := true, time := (is_ratelimited s now rules).2,
        store := s, warning := some entity_key } := by
  have hlen : ¬ (rules.length = 0) := by
    cases rules with
    | nil => exact absurd rfl hrules
    | cons a l => simp
  have hfail : incr_ratelimit conflict s now rules mac maw = IncrResult.lockingFailure := by
    rw [incr_ratelimit, if_neg hlen]
    rw [incr_loop_fail_iff conflict s now mac maw 11 0 (by omega) (by omega)]
    intro i _ hi
    exact hconf i hi
  simp [rate_limit_entity, hallow, hfail]

/-- Witness for C6 with an empty history, rules [(60, 2)] and an
always-conflicting schedule. -/
theorem c6_witness :
    (([((60 : ℕ), (2 : ℕ))] : List Rule) ≠ [] ∧
     (∀ i : ℕ, i ≤ 11 → (fun _ : ℕ => true) i = true) ∧
     (is_ratelimited ⟨[], [], none, none, none⟩ 0 [(60, 2)]).1 = false) ∧
    rate_limit_entity "user:42" (fun _ => true) ⟨[], [], none, none, none⟩ 0 [(60, 2)] 2 60 =
      { ratelimited := true, time := 0, store := ⟨[], [], none, none, none⟩,
        warning := some "user:42" } :=
  ⟨⟨by simp, fun _ _ => rfl, rfl⟩,
    c6_locking_failure_fail_closed "user:42" (fun _ => true) ⟨[], [], none, none, none⟩ 0
      [(60, 2)] 2 60 (by simp) (fun _ _ => rfl) rfl⟩

/-- C8: whenever the overall check-and-record operation reports denied —
whether from the block flag, a tripped rule, or a locking failure — the
store is returned unchanged: nothing is recorded on deny. -/
theorem c8_no_mutation_on_deny (entity_key : String) (conflict : ℕ → Bool) (s : Store)
    (now : ℚ) (rules : List Rule) (mac maw : ℕ)
    (hden : (rate_limit_entity entity_key conflict s now rules mac maw).ratelimited = true) :
    (rate_limit_entity entity_key conflict s now rules mac maw).store = s := by
  by_cases h : (is_ratelimited s now rules).1 = true
  · simp [rate_limit_entity, h]
  · rcases hit : incr_ratelimit conflict s now rules mac maw with s2 | _
    · simp [rate_limit_entity, h, hit] at hden
    · simp [rate_limit_entity, h, hit]

/-- Witness for C8 at a blocked store: the evaluation denies and the store
comes back untouched. -/
theorem c8_witness :
    (rate_limit_entity "k" (fun _ => false) ⟨[], [], none, none, some 100⟩ 5 [] 0 0).ratelimited
      = true ∧
    (rate_limit_entity "k" (fun _ => false) ⟨[], [], none, none, some 100⟩ 5 [] 0 0).store =
      ⟨[], [], none, none, some 100⟩ :=
  ⟨rfl, c8_no_mutation_on_deny "k" (fun _ => false) ⟨[], [], none, none, some 100⟩ 5 [] 0 0 rfl⟩

/-- C9: from block(seconds) until the flag expires, every check-and-record
returns denied with wait = remaining TTL, lying in (0, seconds], regardless
of call history and rule set; when the flag is seen but its TTL cannot be
read the reported wait defaults to 1/2 second; and unblocking removes the
flag so evaluation proceeds by the rules alone, over the same history. -/
theorem c9_block_unblock (entity_key : String) (conflict : ℕ → Bool) (s : Store)
    (now0 now : ℚ) (seconds : ℕ) (rules : List Rule) (mac maw : ℕ)
    (h1 : now0 ≤ now) (h2 : now < now0 + (seconds : ℚ)) :
    (rate_limit_entity entity_key conflict (block_access s now0 seconds) now rules mac maw =
      { ratelimited := true, time := now0 + (seconds : ℚ) - now,
        store := block_access s now0 seconds, warning := none } ∧
      0 < now0 + (seconds : ℚ) - now ∧ now0 + (seconds : ℚ) - now ≤ (seconds : ℚ)) ∧
    (∀ ts rs n2, is_ratelimited_core ts true none rs n2 = (true, 1 / 2)) ∧
    (∀ n2 rs, is_ratelimited (unblock_access (block_access s now0 seconds)) n2 rs =
      is_ratelimited_core (fetch_rule_timestamps s.list rs) false none rs n2) := by
  refine ⟨⟨?_, by linarith, by linarith⟩, ?_, ?_⟩
  · have hbe : block_exists (block_access s now0 seconds) now = true := by
      simp [block_exists, block_access, h2]
    have httl : blocking_ttl_read (block_access s now0 seconds) now =
        some (now0 + (seconds : ℚ) - now) := by
      simp [blocking_ttl_read, block_access, h2]
    have hrt : is_ratelimited (block_access s now0 seconds) now rules =
        (true, now0 + (seconds : ℚ) - now) := by
      rw [is_ratelimited, hbe, httl]
      simp [is_ratelimited_core]
    simp [rate_limit_entity, hrt]
  · intro ts rs n2
    simp [is_ratelimited_core]
  · intro n2 rs
    rfl

/-- Witness for C9: block for 30 seconds at instant 0, observed at instant 1
with one stored timestamp and rule (60, 1). -/
theorem c9_witness :
    ((0 : ℚ) ≤ 1 ∧ (1 : ℚ) < 0 + ((30 : ℕ) : ℚ)) ∧
    ((rate_limit_entity "k" (fun _ => false) (block_access ⟨[1], [1], none, none, none⟩ 0 30) 1
        [(60, 1)] 1 60 =
      { ratelimited := true, time := 0 + ((30 : ℕ) : ℚ) - 1,
        store := block_access ⟨[1], [1], none, none, none⟩ 0 30, warning := none } ∧
      0 < 0 + ((30 : ℕ) : ℚ) - 1 ∧ 0 + ((30 : ℕ) : ℚ) - 1 ≤ ((30 : ℕ) : ℚ)) ∧
     (∀ ts rs n2, is_ratelimited_core ts true none rs n2 = (true, 1 / 2)) ∧
     (∀ n2 rs,
        is_ratelimited (unblock_access (block_access ⟨[1], [1], none, none, none⟩ 0 30)) n2 rs =
          is_ratelimited_core (fetch_rule_timestamps [1] rs) false none rs n2)) :=
  ⟨⟨by norm_num, by norm_num⟩,
    c9_block_unblock "k" (fun _ => false) ⟨[1], [1], none, none, none⟩ 0 1 30 [(60, 1)] 1 60
      (by norm_num) (by norm_num)⟩

/-- C1 counterexample: rule set [(1, 5), (60, 3)] (sorted ascending by
window; the maximum max_calls over all rules is 5): on an allowed call over
a history of five old timestamps, the entity layer passes trim bound
rules[-1][1] = 3, so the recorded history keeps 3 timestamps — not the
min (5+1) 5 = 5 the claim's bound would give. -/
theorem c1_counterexample :
    rate_limit "k" (fun _ => false) ⟨[10, 9, 8, 7, 6], [10, 9, 8, 7, 6], some 70, some 70, none⟩
        1000 [(1, 5), (60, 3)] =
      some { ratelimited := false, time := 0,
             store := ⟨[1000, 10, 9], [1000, 10, 9, 7, 6], some 1060, some 1060, none⟩,
             warning := none } ∧
    (([(1, 5), (60, 3)] : List Rule).map (fun r => r.2)).maximum = some 5 ∧
    ([(1000 : ℚ), 10, 9]).length ≠ min ([(10 : ℚ), 9, 8, 7, 6].length + 1) 5 := by
  refine ⟨?_, by decide, by decide⟩
  have hloop := incr_loop_first_ok (fun _ => false)
    ⟨[10, 9, 8, 7, 6], [10, 9, 8, 7, 6], some 70, some 70, none⟩ 1000 3 60 rfl
  norm_num [rate_limit, max_api_calls, max_api_window, rate_limit_entity, incr_ratelimit,
    is_ratelimited, is_ratelimited_core, fetch_rule_timestamps, redis_lindex, check_rules,
    block_exists, blocking_ttl_read, hloop, incr_body, redis_ltrim_from_zero, zadd, zrem,
    List.filter_cons, show ((4 : ℤ).toNat = 4) from rfl, show ((2 : ℤ).toNat = 2) from rfl,
    List.getElem_cons_succ, List.getElem_cons_zero, List.take_succ_cons, List.take_zero]

/-- C1 (amended): the trim bound the entity layer passes to the backend is
`max_api_calls = rules[-1][1]` — the call count of the last, largest-window
rule, not the maximum count over all rules; after any allowed and
successfully recorded call, the Call History equals the new timestamp
prepended to the old history, trimmed to that bound. -/
theorem c1_trim_bound (entity_key : String) (conflict : ℕ → Bool) (s : Store) (now : ℚ)
    (rules : List Rule) (mac : ℕ) (r : RLResult)
    (hmac : max_api_calls rules = some mac) (hpos : 0 < mac)
    (hr : rate_limit entity_key conflict s now rules = some r)
    (hallow : r.ratelimited = false)
    (hwarn : r.warning = none) :
    r.store.list = (now :: s.list).take mac ∧
    r.store.list.length = min mac (s.list.length + 1) := by
  have hgl : ∃ rl : Rule, rules.getLast? = some rl ∧ rl.2 = mac := by
    cases hq : rules.getLast? with
    | none => rw [max_api_calls, hq] at hmac; simp at hmac
    | some rl =>
      rw [max_api_calls, hq] at hmac
      simp at hmac
      exact ⟨rl, rfl, hmac⟩
  obtain ⟨rl, hrl, hrl2⟩ := hgl
  have hmaw : max_api_window rules = some rl.1 := by rw [max_api_window, hrl]; rfl
  rw [rate_limit, hmac, hmaw] at hr
  have hr2 : r = rate_limit_entity entity_key conflict s now rules mac rl.1 :=
    (Option.some.inj hr).symm
  have hne : rules ≠ [] := by
    intro h
    rw [h] at hrl
    simp at hrl
  have hlen : ¬ (rules.length = 0) := by
    cases rules with
    | nil => exact absurd rfl hne
    | cons a l => simp
  by_cases hi : (is_ratelimited s now rules).1 = true
  · rw [hr2] at hallow
    simp [rate_limit_entity, hi] at hallow
  · rcases incr_loop_cases conflict s now mac rl.1 11 0 (by omega) with hfail | hok
    · have hf2 : incr_ratelimit conflict s now rules mac rl.1 = IncrResult.lockingFailure := by
        rw [incr_ratelimit, if_neg hlen]
        exact hfail
      rw [hr2] at hwarn
      simp [rate_limit_entity, hi, hf2] at hwarn
    · have hincr : incr_ratelimit conflict s now rules mac rl.1 =
          IncrResult.ok (incr_body s now mac rl.1) := by
        rw [incr_ratelimit, if_neg hlen]
        exact hok
      have hstore : r.store = incr_body s now mac rl.1 := by
        rw [hr2]
        simp [rate_limit_entity, hi, hincr]
      have hlist : r.store.list = (now :: s.list).take mac := by
        rw [hstore]
        show redis_ltrim_from_zero (now :: s.list) ((mac : ℤ) - 1) = (now :: s.list).take mac
        exact redis_ltrim_pos (now :: s.list) mac hpos
      refine ⟨hlist, ?_⟩
      rw [hlist, List.length_take, List.length_cons]

/-- Witness for C1 (amended): rules [(60, 2)], empty history, no conflicts:
the recorded history is [0] = take 2 of the pushed list. -/
theorem c1_witness :
    (max_api_calls [(60, 2)] = some 2 ∧ 0 < 2 ∧
     rate_limit "k" (fun _ => false) ⟨[], [], none, none, none⟩ 0 [(60, 2)] =
       some { ratelimited := false, time := 0,
              store := ⟨[0], [0], some 60, some 60, none⟩, warning := none } ∧
     (false : Bool) = false ∧ (none : Option String) = none) ∧
    (([(0 : ℚ)]) = ((0 : ℚ) :: ([] : List ℚ)).take 2 ∧
     ([(0 : ℚ)]).length = min 2 (([] : List ℚ).length + 1)) := by
  have hr : rate_limit "k" (fun _ => false) ⟨[], [], none, none, none⟩ 0 [(60, 2)] =
      some { ratelimited := false, time := 0,
             store := ⟨[0], [0], some 60, some 60, none⟩, warning := none } := by
    have hloop := incr_loop_first_ok (fun _ => false) ⟨[], [], none, none, none⟩ 0 2 60 rfl
    norm_num [rate_limit, max_api_calls, max_api_window, rate_limit_entity, incr_ratelimit,
      is_ratelimited, is_ratelimited_core, fetch_rule_timestamps, redis_lindex, check_rules,
      block_exists, blocking_ttl_read, hloop, incr_body, redis_ltrim_from_zero, zadd, zrem,
      show ((1 : ℤ).toNat = 1) from rfl, List.getElem_cons_succ, List.getElem_cons_zero,
      List.take_succ_cons, List.take_zero]
  exact ⟨⟨rfl, by norm_num, hr, rfl, rfl⟩,
    c1_trim_bound "k" (fun _ => false) ⟨[], [], none, none, none⟩ 0 [(60, 2)] 2
      { ratelimited := false, time := 0, store := ⟨[0], [0], some 60, some 60, none⟩,
        warning := none }
      rfl (by norm_num) hr rfl rfl⟩
